import Mathlib

/-!
Verification development for the Aurix financial-intelligence backend
(`src/backend/src/etl/kpis.py`, `src/backend/src/etl/normalize.py`,
`src/backend/src/etl/forecasts.py`, `src/backend/src/workers/tasks/ingest.py`).

Modelling conventions of the shallow embedding:
* Calendar dates are integer day numbers (`Int`); `date.today()` becomes an
  explicit `today : Int` argument.
* Python `Decimal` amounts are exact rationals (`Rat`).
* A SQL result set is a Lean list of rows; `ORDER BY` is a stable insertion
  sort on the ordering column; a Python `dict` produced by a group-by is an
  association list with pairwise-distinct keys, queried through `List.lookup`.
* Fallible code returns `Option`/`Except`.
-/

namespace Aurix

/-- A row of the `transactions` table (`db/models/__init__.py`, class
`Transaction`): the columns the ETL layer reads, plus the identifying
columns `tenant_id`, `data_source_id`, `external_id`. -/
structure TxnRow where
  tenant_id : Nat
  data_source_id : Nat
  date : Int
  amount : Rat
  category : Option String
  description : String
  external_id : String
  deriving Repr, DecidableEq

/-- A row of the `metrics_daily` table (class `MetricDaily`). -/
structure MetricRow where
  tenant_id : Nat
  date : Int
  metric : String
  value : Rat
  deriving Repr, DecidableEq

/-- A row of the `forecasts` table (class `Forecast`): the columns
`get_latest_forecast` reads, with `created_at` as an integer timestamp. -/
structure ForecastRow where
  tenant_id : Nat
  metric : String
  horizon_days : Nat
  series : List (Int × Rat)
  confidence_intervals : List (Int × (Rat × Rat))
  accuracy_score : Option Rat
  created_at : Int
  deriving Repr, DecidableEq

/-- The database state visible to the KPI and forecast engines. -/
structure Db where
  transactions : List TxnRow
  metrics_daily : List MetricRow
  forecasts : List ForecastRow
  deriving Repr, DecidableEq

/-- One row of the pandas DataFrame built by
`KPIEngine.get_transactions_df`: the four columns `date`, `amount`,
`category`, `description` extracted from a `Transaction` row. -/
structure Txn where
  date : Int
  amount : Rat
  category : Option String
  description : String
  deriving Repr, DecidableEq

/-- Projection of a stored transaction row onto the DataFrame columns. -/
def TxnRow.toTxn (r : TxnRow) : Txn :=
  { date := r.date, amount := r.amount, category := r.category,
    description := r.description }

/-- `KPIEngine.get_transactions_df` (kpis.py lines 34-77): select the
tenant's transactions with `start_date <= date <= end_date`, ordered by
date (stable sort), and keep the DataFrame columns. -/
def get_transactions_df (db : Db) (tenant : Nat) (start_date end_date : Int) :
    List Txn :=
  let rows := db.transactions.filter fun r =>
    r.tenant_id = tenant ∧ start_date ≤ r.date ∧ r.date ≤ end_date
  let sorted := rows.insertionSort fun a b => a.date ≤ b.date
  sorted.map TxnRow.toTxn

/-- Sum of the `amount` column over the rows of `l` dated `d`
(the column-sum inside one group of a pandas `groupby(date)`). -/
def sumOn (l : List Txn) (d : Int) : Rat :=
  ((l.filter fun t => t.date = d).map Txn.amount).sum

/-- The distinct dates of `l`, first occurrence first (the group keys of a
pandas `groupby` over the `date` column). -/
def datesOf (l : List Txn) : List Int :=
  (l.map Txn.date).dedup

/-- `groupby(date)["amount"].sum().to_dict()`: association list mapping
each date occurring in `l` to the sum of the amounts on that date. -/
def groupSum (l : List Txn) : List (Int × Rat) :=
  (datesOf l).map fun d => (d, sumOn l d)

/-- Same group-by, but each per-date sum is replaced by its absolute value
(`.apply(lambda x: abs(x.sum()))` in `compute_expenses`). -/
def groupAbsSum (l : List Txn) : List (Int × Rat) :=
  (datesOf l).map fun d => (d, |sumOn l d|)

/-- `KPIEngine.compute_revenue` (kpis.py lines 79-97): group-by-sum of the
transactions whose `category` column equals `"Revenue"`. -/
def compute_revenue (db : Db) (tenant : Nat) (start_date end_date : Int) :
    List (Int × Rat) :=
  let df := get_transactions_df db tenant start_date end_date
  if df.isEmpty then []
  else groupSum (df.filter fun t => t.category = some "Revenue")

/-- The static `expense_categories` list of `compute_expenses`. -/
def expense_categories : List String :=
  ["Expense", "SaaS", "Infrastructure", "Marketing", "Payroll",
   "Contractor", "Office", "Travel", "Meals & Entertainment"]

/-- The row filter of `compute_expenses`:
`df["category"].isin(expense_categories) | (df["amount"] < 0)`. -/
def isExpenseTxn (t : Txn) : Prop :=
  (∃ c, t.category = some c ∧ c ∈ expense_categories) ∨ t.amount < 0

instance (t : Txn) : Decidable (isExpenseTxn t) := by
  unfold isExpenseTxn
  cases t.category <;> simp <;> infer_instance

/-- `KPIEngine.compute_expenses` (kpis.py lines 99-117): group the expense
rows by date and take the absolute value of each per-date sum. -/
def compute_expenses (db : Db) (tenant : Nat) (start_date end_date : Int) :
    List (Int × Rat) :=
  let df := get_transactions_df db tenant start_date end_date
  if df.isEmpty then []
  else groupAbsSum (df.filter fun t => isExpenseTxn t)

/-- `KPIEngine.compute_net_cash` (kpis.py lines 119-133): on the union of
the revenue and expense dates, revenue minus expenses, a missing side
counting as `0`. -/
def compute_net_cash (db : Db) (tenant : Nat) (start_date end_date : Int) :
    List (Int × Rat) :=
  let revenue := compute_revenue db tenant start_date end_date
  let expenses := compute_expenses db tenant start_date end_date
  let all_dates := (revenue.map Prod.fst ++ expenses.map Prod.fst).dedup
  all_dates.map fun d =>
    (d, ((revenue.lookup d).getD 0) - ((expenses.lookup d).getD 0))

/-- `KPIEngine.compute_burn_rate` (kpis.py lines 135-156): total of the
`compute_expenses` series over `[today - days, today]`, divided by `days`;
`0` when that series is empty. -/
def compute_burn_rate (db : Db) (tenant : Nat) (today : Int) (days : Nat) :
    Rat :=
  let expenses := compute_expenses db tenant (today - days) today
  if expenses.isEmpty then 0
  else ((expenses.map Prod.snd).sum) / (days : Rat)

/-- Python `int()` applied to an exact rational: truncation toward zero. -/
def truncRat (q : Rat) : Int :=
  if q < 0 then -⌊-q⌋ else ⌊q⌋

/-- The fixed day number the source writes as `date(2020, 1, 1)` ("far past
date" in `compute_runway`); dates are abstract day numbers here, so any
fixed value represents it. -/
def far_past_date : Int := 737790

/-- The cash balance `compute_runway` uses: the given `current_cash`, or,
when `None`, the sum of all transaction amounts dated in
`[date(2020,1,1), today]` (0 if there are none). -/
def resolved_cash (db : Db) (tenant : Nat) (today : Int)
    (current_cash : Option Rat) : Rat :=
  match current_cash with
  | some c => c
  | none =>
      let df := get_transactions_df db tenant far_past_date today
      if df.isEmpty then 0 else (df.map Txn.amount).sum

/-- `KPIEngine.compute_runway` (kpis.py lines 158-190): `999` when the
30-day burn rate is `0`; otherwise `0` when the (given or computed) cash
balance is `≤ 0`, else `int(current_cash / burn_rate)`. -/
def compute_runway (db : Db) (tenant : Nat) (today : Int)
    (current_cash : Option Rat) : Int :=
  let burn_rate := compute_burn_rate db tenant today 30
  if burn_rate = 0 then 999
  else
    let cash := resolved_cash db tenant today current_cash
    if cash ≤ 0 then 0
    else truncRat (cash / burn_rate)

@[simp] theorem toTxn_date (r : TxnRow) : r.toTxn.date = r.date := rfl

@[simp] theorem toTxn_amount (r : TxnRow) : r.toTxn.amount = r.amount := rfl

@[simp] theorem toTxn_category (r : TxnRow) : r.toTxn.category = r.category := rfl

/-- Looking a key up in an association list of the shape produced by the
group-by steps (`keys.map fun k => (k, f k)`). -/
theorem lookup_keyMap {β : Type} (keys : List Int) (f : Int → β) (d : Int) :
    ((keys.map fun k => (k, f k)).lookup d) =
      if d ∈ keys then some (f d) else none := by
  induction keys with
  | nil => simp
  | cons k ks ih =>
    by_cases h : d = k
    · simp [List.lookup, h]
    · have hb : (d == k) = false := by simp [h]
      simp [List.lookup, hb, ih, h]

/-- The key column of such an association list is the key list itself. -/
theorem keys_keyMap {β : Type} (keys : List Int) (f : Int → β) :
    (keys.map fun k => (k, f k)).map Prod.fst = keys := by
  simp [List.map_map, Function.comp_def]

theorem lookup_keyMap_isSome {β : Type} (keys : List Int) (f : Int → β)
    (d : Int) :
    ((keys.map fun k => (k, f k)).lookup d).isSome = true ↔ d ∈ keys := by
  rw [lookup_keyMap]
  by_cases h : d ∈ keys <;> simp [h]

theorem mem_datesOf (l : List Txn) (d : Int) :
    d ∈ datesOf l ↔ ∃ t ∈ l, t.date = d := by
  simp [datesOf, List.mem_dedup, List.mem_map]

theorem sumOn_perm {l₁ l₂ : List Txn} (h : l₁.Perm l₂) (d : Int) :
    sumOn l₁ d = sumOn l₂ d :=
  ((h.filter _).map Txn.amount).sum_eq

theorem lookup_groupSum (l : List Txn) (d : Int) :
    (groupSum l).lookup d =
      if d ∈ datesOf l then some (sumOn l d) else none :=
  lookup_keyMap (datesOf l) _ d

theorem lookup_groupAbsSum (l : List Txn) (d : Int) :
    (groupAbsSum l).lookup d =
      if d ∈ datesOf l then some |sumOn l d| else none :=
  lookup_keyMap (datesOf l) _ d

theorem lookup_groupSum_perm {l₁ l₂ : List Txn} (h : l₁.Perm l₂) (d : Int) :
    (groupSum l₁).lookup d = (groupSum l₂).lookup d := by
  rw [lookup_groupSum, lookup_groupSum, sumOn_perm h]
  congr 1
  simp only [mem_datesOf, eq_iff_iff]
  exact ⟨fun ⟨t, ht, hd⟩ => ⟨t, h.mem_iff.mp ht, hd⟩,
    fun ⟨t, ht, hd⟩ => ⟨t, h.mem_iff.mpr ht, hd⟩⟩

theorem lookup_groupAbsSum_perm {l₁ l₂ : List Txn} (h : l₁.Perm l₂)
    (d : Int) :
    (groupAbsSum l₁).lookup d = (groupAbsSum l₂).lookup d := by
  rw [lookup_groupAbsSum, lookup_groupAbsSum, sumOn_perm h]
  congr 1
  simp only [mem_datesOf, eq_iff_iff]
  exact ⟨fun ⟨t, ht, hd⟩ => ⟨t, h.mem_iff.mp ht, hd⟩,
    fun ⟨t, ht, hd⟩ => ⟨t, h.mem_iff.mpr ht, hd⟩⟩

/-- `get_transactions_df` is, up to the (order-irrelevant) sort, the
filtered transaction table projected onto the DataFrame columns. -/
theorem get_transactions_df_perm (db : Db) (tenant : Nat) (s e : Int) :
    (get_transactions_df db tenant s e).Perm
      ((db.transactions.filter fun r =>
          r.tenant_id = tenant ∧ s ≤ r.date ∧ r.date ≤ e).map TxnRow.toTxn) :=
  (List.perm_insertionSort _ _).map TxnRow.toTxn

/-- The `df.empty` early return of `compute_revenue` is absorbed by the
group-by of an empty list. -/
theorem compute_revenue_eq (db : Db) (tenant : Nat) (s e : Int) :
    compute_revenue db tenant s e =
      groupSum ((get_transactions_df db tenant s e).filter fun t =>
        t.category = some "Revenue") := by
  unfold compute_revenue
  by_cases h : (get_transactions_df db tenant s e).isEmpty
  · rw [List.isEmpty_iff] at h
    simp [h, groupSum, datesOf]
  · simp [h]

theorem compute_expenses_eq (db : Db) (tenant : Nat) (s e : Int) :
    compute_expenses db tenant s e =
      groupAbsSum ((get_transactions_df db tenant s e).filter fun t =>
        isExpenseTxn t) := by
  unfold compute_expenses
  by_cases h : (get_transactions_df db tenant s e).isEmpty
  · rw [List.isEmpty_iff] at h
    simp [h, groupAbsSum, datesOf]
  · simp [h]

/-- Membership in the group keys of a filtered transaction DataFrame,
phrased over the stored rows. -/
theorem mem_datesOf_filtered (db : Db) (tenant : Nat) (s e d : Int)
    (q : Txn → Bool) :
    d ∈ datesOf ((get_transactions_df db tenant s e).filter q) ↔
      ∃ r ∈ db.transactions,
        (r.tenant_id = tenant ∧ s ≤ r.date ∧ r.date ≤ e) ∧
        q r.toTxn = true ∧ r.date = d := by
  have hm : ∀ t, t ∈ (get_transactions_df db tenant s e).filter q ↔
      t ∈ ((db.transactions.filter fun r =>
        r.tenant_id = tenant ∧ s ≤ r.date ∧ r.date ≤ e).map TxnRow.toTxn).filter q :=
    fun t => ((get_transactions_df_perm db tenant s e).filter q).mem_iff
  rw [mem_datesOf]
  simp only [hm, List.mem_filter, List.mem_map, decide_eq_true_eq]
  constructor
  · rintro ⟨t, ⟨⟨r, ⟨hr, hpr⟩, rfl⟩, hq⟩, hd⟩
    exact ⟨r, hr, hpr, hq, hd⟩
  · rintro ⟨r, hr, hpr, hq, hd⟩
    exact ⟨r.toTxn, ⟨⟨r, ⟨hr, hpr⟩, rfl⟩, hq⟩, hd⟩

/-- The per-date column sum of a filtered transaction DataFrame, phrased
over the stored rows. -/
theorem sumOn_filtered (db : Db) (tenant : Nat) (s e d : Int)
    (q : Txn → Bool) :
    sumOn ((get_transactions_df db tenant s e).filter q) d =
      ((((db.transactions.filter fun r =>
            r.tenant_id = tenant ∧ s ≤ r.date ∧ r.date ≤ e).filter fun r =>
              q r.toTxn).filter fun r => r.date = d).map TxnRow.amount).sum := by
  rw [sumOn_perm ((get_transactions_df_perm db tenant s e).filter q)]
  unfold sumOn
  rw [List.filter_map, List.filter_map, List.map_map]
  congr 1

/-- The claim's reading of "a transaction categorized Revenue dated `d`
in `[s, e]`" for the tenant. -/
def has_revenue_txn (db : Db) (tenant : Nat) (s e d : Int) : Prop :=
  ∃ r ∈ db.transactions, r.tenant_id = tenant ∧ s ≤ r.date ∧ r.date ≤ e ∧
    r.date = d ∧ r.category = some "Revenue"

instance (db : Db) (tenant : Nat) (s e d : Int) :
    Decidable (has_revenue_txn db tenant s e d) :=
  List.decidableBEx _ _

/-- The claim's reading of "the sum of those transactions' amounts on that
date": signed sum of the tenant's Revenue transactions dated `d`. -/
def revenue_sum_on (db : Db) (tenant : Nat) (d : Int) : Rat :=
  ((db.transactions.filter fun r =>
      r.tenant_id = tenant ∧ r.date = d ∧ r.category = some "Revenue").map
    TxnRow.amount).sum

/-- An expense transaction in the sense of `compute_expenses`: category in
the static expense list, or negative amount. -/
def has_expense_txn (db : Db) (tenant : Nat) (s e d : Int) : Prop :=
  ∃ r ∈ db.transactions, r.tenant_id = tenant ∧ s ≤ r.date ∧ r.date ≤ e ∧
    r.date = d ∧ isExpenseTxn r.toTxn

instance (db : Db) (tenant : Nat) (s e d : Int) :
    Decidable (has_expense_txn db tenant s e d) :=
  List.decidableBEx _ _

/-- Signed sum of the tenant's expense transactions dated `d`. -/
def expense_sum_on (db : Db) (tenant : Nat) (d : Int) : Rat :=
  ((db.transactions.filter fun r =>
      r.tenant_id = tenant ∧ r.date = d ∧ isExpenseTxn r.toTxn).map
    TxnRow.amount).sum

theorem lookup_compute_revenue (db : Db) (tenant : Nat) (s e d : Int) :
    (compute_revenue db tenant s e).lookup d =
      if has_revenue_txn db tenant s e d then some (revenue_sum_on db tenant d)
      else none := by
  rw [compute_revenue_eq, lookup_groupSum]
  by_cases h : has_revenue_txn db tenant s e d
  · obtain ⟨r₀, hr₀, hT₀, hs₀, he₀, hd₀, hc₀⟩ := h
    have hmem : d ∈ datesOf ((get_transactions_df db tenant s e).filter
        fun t => t.category = some "Revenue") := by
      rw [mem_datesOf_filtered]
      exact ⟨r₀, hr₀, ⟨hT₀, hs₀, he₀⟩, by simpa using hc₀, hd₀⟩
    have hrange : s ≤ d ∧ d ≤ e := ⟨hd₀ ▸ hs₀, hd₀ ▸ he₀⟩
    rw [if_pos hmem,
      if_pos (show has_revenue_txn db tenant s e d from
        ⟨r₀, hr₀, hT₀, hs₀, he₀, hd₀, hc₀⟩)]
    congr 1
    rw [sumOn_filtered, revenue_sum_on, List.filter_filter,
      List.filter_filter]
    refine congrArg List.sum (congrArg (List.map TxnRow.amount) (List.filter_congr ?_))
    intro r _
    simp only [Bool.and_eq_true, decide_eq_true_eq, eq_iff_iff,
      ← Bool.decide_and, decide_eq_decide]
    constructor
    · rintro ⟨⟨hd, hc⟩, hT, -, -⟩
      exact ⟨hT, hd, hc⟩
    · rintro ⟨hT, hd, hc⟩
      exact ⟨⟨hd, hc⟩, hT, by rw [hd]; exact hrange.1, by rw [hd]; exact hrange.2⟩
  · rw [if_neg h]
    rw [if_neg (fun hmem => h ?_)]
    rw [mem_datesOf_filtered] at hmem
    obtain ⟨r, hr, ⟨hT, hs, he⟩, hq, hd⟩ := hmem
    exact ⟨r, hr, hT, hs, he, hd, by simpa using hq⟩

theorem lookup_compute_expenses (db : Db) (tenant : Nat) (s e d : Int) :
    (compute_expenses db tenant s e).lookup d =
      if has_expense_txn db tenant s e d then some |expense_sum_on db tenant d|
      else none := by
  rw [compute_expenses_eq, lookup_groupAbsSum]
  by_cases h : has_expense_txn db tenant s e d
  · obtain ⟨r₀, hr₀, hT₀, hs₀, he₀, hd₀, hc₀⟩ := h
    have hmem : d ∈ datesOf ((get_transactions_df db tenant s e).filter
        fun t => isExpenseTxn t) := by
      rw [mem_datesOf_filtered]
      exact ⟨r₀, hr₀, ⟨hT₀, hs₀, he₀⟩, by simpa using hc₀, hd₀⟩
    have hrange : s ≤ d ∧ d ≤ e := ⟨hd₀ ▸ hs₀, hd₀ ▸ he₀⟩
    rw [if_pos hmem,
      if_pos (show has_expense_txn db tenant s e d from
        ⟨r₀, hr₀, hT₀, hs₀, he₀, hd₀, hc₀⟩)]
    congr 2
    rw [sumOn_filtered, expense_sum_on, List.filter_filter,
      List.filter_filter]
    refine congrArg List.sum (congrArg (List.map TxnRow.amount) (List.filter_congr ?_))
    intro r _
    simp only [Bool.and_eq_true, decide_eq_true_eq, eq_iff_iff,
      ← Bool.decide_and, decide_eq_decide]
    constructor
    · rintro ⟨⟨hd, hc⟩, hT, -, -⟩
      exact ⟨hT, hd, hc⟩
    · rintro ⟨hT, hd, hc⟩
      exact ⟨⟨hd, hc⟩, hT, by rw [hd]; exact hrange.1, by rw [hd]; exact hrange.2⟩
  · rw [if_neg h]
    rw [if_neg (fun hmem => h ?_)]
    rw [mem_datesOf_filtered] at hmem
    obtain ⟨r, hr, ⟨hT, hs, he⟩, hq, hd⟩ := hmem
    exact ⟨r, hr, hT, hs, he, hd, by simpa using hq⟩

theorem mem_keys_compute_revenue (db : Db) (tenant : Nat) (s e d : Int) :
    d ∈ (compute_revenue db tenant s e).map Prod.fst ↔
      ((compute_revenue db tenant s e).lookup d).isSome = true := by
  rw [compute_revenue_eq]
  unfold groupSum
  rw [keys_keyMap, lookup_keyMap_isSome]

theorem mem_keys_compute_expenses (db : Db) (tenant : Nat) (s e d : Int) :
    d ∈ (compute_expenses db tenant s e).map Prod.fst ↔
      ((compute_expenses db tenant s e).lookup d).isSome = true := by
  rw [compute_expenses_eq]
  unfold groupAbsSum
  rw [keys_keyMap, lookup_keyMap_isSome]

/-- C4 (amended): the daily aggregation is group-by-sum; revenue maps each
date of `[start, end]` carrying a Revenue transaction to the sum of those
amounts, while expenses map each date carrying an expense transaction to
the ABSOLUTE VALUE of the per-date sum of expense amounts. -/
theorem daily_aggregation_is_group_by_sum (db : Db) (tenant : Nat)
    (s e d : Int) :
    ((compute_revenue db tenant s e).lookup d =
      if has_revenue_txn db tenant s e d then some (revenue_sum_on db tenant d)
      else none)
    ∧ ((compute_expenses db tenant s e).lookup d =
      if has_expense_txn db tenant s e d then some |expense_sum_on db tenant d|
      else none) :=
  ⟨lookup_compute_revenue db tenant s e d,
    lookup_compute_expenses db tenant s e d⟩

/-- A transaction row of tenant 1: an expense of −50 on day 10. -/
def rowNegExpense : TxnRow where
  tenant_id := 1
  data_source_id := 1
  date := 10
  amount := -50
  category := some "Expense"
  description := ""
  external_id := "x"

/-- A store holding only `rowNegExpense`. -/
def dbNegExpense : Db where
  transactions := [rowNegExpense]
  metrics_daily := []
  forecasts := []

/-- C4 counterexample: `compute_expenses` maps day 10 to `50`, the absolute
value of the per-date sum, not to the per-date sum `−50` of the expense
transactions' amounts as the claim states. -/
theorem expenses_map_abs_not_sum :
    (compute_expenses dbNegExpense 1 0 20).lookup 10 = some 50 ∧
      expense_sum_on dbNegExpense 1 10 = -50 := by
  constructor
  · simp [compute_expenses, dbNegExpense, rowNegExpense, get_transactions_df,
      List.insertionSort, List.orderedInsert, TxnRow.toTxn, isExpenseTxn,
      expense_categories, groupAbsSum, datesOf, sumOn, List.lookup]
  · simp [expense_sum_on, dbNegExpense, rowNegExpense, isExpenseTxn,
      expense_categories, TxnRow.toTxn]

/-- C6: the net-cash series is defined exactly on the union of the revenue
and expense dates, and equals revenue minus expenses there, a missing side
counting as 0. -/
theorem net_cash_is_revenue_minus_expenses (db : Db) (tenant : Nat)
    (s e d : Int) :
    (compute_net_cash db tenant s e).lookup d =
      if ((compute_revenue db tenant s e).lookup d).isSome
          ∨ ((compute_expenses db tenant s e).lookup d).isSome
      then some (((compute_revenue db tenant s e).lookup d).getD 0
        - ((compute_expenses db tenant s e).lookup d).getD 0)
      else none := by
  have hbody : compute_net_cash db tenant s e =
      (((compute_revenue db tenant s e).map Prod.fst
          ++ (compute_expenses db tenant s e).map Prod.fst).dedup).map
        fun x => (x, ((compute_revenue db tenant s e).lookup x).getD 0
          - ((compute_expenses db tenant s e).lookup x).getD 0) := rfl
  rw [hbody, lookup_keyMap]
  have hmem : d ∈ ((compute_revenue db tenant s e).map Prod.fst
      ++ (compute_expenses db tenant s e).map Prod.fst).dedup ↔
      (((compute_revenue db tenant s e).lookup d).isSome = true
        ∨ ((compute_expenses db tenant s e).lookup d).isSome = true) := by
    rw [List.mem_dedup, List.mem_append, mem_keys_compute_revenue,
      mem_keys_compute_expenses]
  by_cases h : (((compute_revenue db tenant s e).lookup d).isSome = true
      ∨ ((compute_expenses db tenant s e).lookup d).isSome = true)
  · rw [if_pos (hmem.mpr h), if_pos h]
  · rw [if_neg (fun hh => h (hmem.mp hh)), if_neg h]

/-- Follows the spec's words for C1 only, to compare with the code: "the
total net cash outflow (cash out minus cash in) of the tenant's
transactions dated in that window" — with inflows recorded as positive
amounts and outflows as negative ones, that is the negated signed sum of
the window's amounts. -/
def spec_net_cash_outflow (db : Db) (tenant : Nat) (s e : Int) : Rat :=
  -(((db.transactions.filter fun r =>
      r.tenant_id = tenant ∧ s ≤ r.date ∧ r.date ≤ e).map TxnRow.amount).sum)

/-- A transaction row of tenant 1: revenue of +100 on day 100. -/
def rowRevenue : TxnRow where
  tenant_id := 1
  data_source_id := 1
  date := 100
  amount := 100
  category := some "Revenue"
  description := ""
  external_id := "r"

/-- A store holding only `rowRevenue`. -/
def dbRevenueOnly : Db where
  transactions := [rowRevenue]
  metrics_daily := []
  forecasts := []

/-- C1 counterexample: with a single inflow of 100 inside the trailing
window, the net cash outflow is −100 (so the claimed average is −100/days
≠ 0 whether the window is counted as 30 or 31 days), yet
`compute_burn_rate` returns 0 because there are no expense transactions. -/
theorem burn_rate_ignores_inflows :
    compute_burn_rate dbRevenueOnly 1 100 30 = 0 ∧
      spec_net_cash_outflow dbRevenueOnly 1 70 100 = -100 ∧
      (-100 / 30 : Rat) ≠ 0 ∧ (-100 / 31 : Rat) ≠ 0 := by
  refine ⟨?_, ?_, by norm_num, by norm_num⟩
  · simp [compute_burn_rate, compute_expenses, dbRevenueOnly, rowRevenue,
      get_transactions_df, List.insertionSort, List.orderedInsert,
      TxnRow.toTxn, isExpenseTxn, expense_categories, groupAbsSum, datesOf,
      sumOn]
  · simp [spec_net_cash_outflow, dbRevenueOnly, rowRevenue]

theorem mem_datesOf_expenses (db : Db) (tenant : Nat) (s e d : Int) :
    d ∈ datesOf ((get_transactions_df db tenant s e).filter fun t =>
        isExpenseTxn t) ↔ has_expense_txn db tenant s e d := by
  rw [mem_datesOf_filtered]
  constructor
  · rintro ⟨r, hr, ⟨hT, hs, he⟩, hq, hd⟩
    exact ⟨r, hr, hT, hs, he, hd, by simpa using hq⟩
  · rintro ⟨r, hr, hT, hs, he, hd, hq⟩
    exact ⟨r, hr, ⟨hT, hs, he⟩, by simpa using hq, hd⟩

theorem sumOn_expenses (db : Db) (tenant : Nat) (s e d : Int) (hs : s ≤ d)
    (he : d ≤ e) :
    sumOn ((get_transactions_df db tenant s e).filter fun t =>
        isExpenseTxn t) d = expense_sum_on db tenant d := by
  rw [sumOn_filtered, expense_sum_on, List.filter_filter,
    List.filter_filter]
  refine congrArg List.sum (congrArg (List.map TxnRow.amount)
    (List.filter_congr ?_))
  intro r _
  simp only [Bool.and_eq_true, decide_eq_true_eq, eq_iff_iff,
    ← Bool.decide_and, decide_eq_decide]
  constructor
  · rintro ⟨⟨hd, hc⟩, hT, -, -⟩
    exact ⟨hT, hd, hc⟩
  · rintro ⟨hT, hd, hc⟩
    exact ⟨⟨hd, hc⟩, hT, by rw [hd]; exact hs, by rw [hd]; exact he⟩

theorem expense_sum_on_eq_zero (db : Db) (tenant : Nat) (s e d : Int)
    (hs : s ≤ d) (he : d ≤ e) (h : ¬ has_expense_txn db tenant s e d) :
    expense_sum_on db tenant d = 0 := by
  unfold expense_sum_on
  rw [List.filter_eq_nil_iff.mpr ?_]
  · simp
  · intro r hr hc
    simp only [decide_eq_true_eq] at hc
    obtain ⟨hT, hd, hq⟩ := hc
    exact h ⟨r, hr, hT, by rw [hd]; exact hs, by rw [hd]; exact he, hd, hq⟩

/-- C1 (amended): for positive `days`, `compute_burn_rate` returns the
total of the absolute per-date expense sums over the 31-date window
`[today − days, today]` — expenses only, not net of inflows — divided by
`days`. -/
theorem burn_rate_is_average_daily_expenses (db : Db) (tenant : Nat)
    (today : Int) (days : Nat) (hdays : 0 < days) :
    compute_burn_rate db tenant today days =
      (∑ d in Finset.Icc (today - days) today, |expense_sum_on db tenant d|)
        / (days : Rat) := by
  unfold compute_burn_rate
  have key : ∀ d ∈ Finset.Icc (today - (days : Int)) today,
      d ∉ datesOf ((get_transactions_df db tenant (today - days) today).filter
        fun t => isExpenseTxn t) → |expense_sum_on db tenant d| = 0 := by
    intro d hd hnot
    rw [Finset.mem_Icc] at hd
    rw [expense_sum_on_eq_zero db tenant (today - days) today d hd.1 hd.2
      (fun hh => hnot ((mem_datesOf_expenses db tenant _ _ d).mpr hh))]
    simp
  by_cases hE : (compute_expenses db tenant (today - days) today).isEmpty
  · rw [if_pos hE]
    rw [compute_expenses_eq, List.isEmpty_iff] at hE
    have hds : datesOf ((get_transactions_df db tenant (today - days)
        today).filter fun t => isExpenseTxn t) = [] := by
      unfold groupAbsSum at hE
      cases hls : datesOf ((get_transactions_df db tenant (today - days)
          today).filter fun t => isExpenseTxn t) with
      | nil => rfl
      | cons a l => rw [hls] at hE; simp at hE
    have : ∀ d ∈ Finset.Icc (today - (days : Int)) today,
        |expense_sum_on db tenant d| = 0 := fun d hd =>
      key d hd (by rw [hds]; exact List.not_mem_nil d)
    rw [Finset.sum_congr rfl this]
    simp
  · rw [if_neg hE]
    congr 1
    rw [compute_expenses_eq]
    unfold groupAbsSum
    rw [List.map_map]
    have hcomp : (Prod.snd ∘ fun d => (d, |sumOn ((get_transactions_df db
        tenant (today - days) today).filter fun t => isExpenseTxn t) d|)) =
        fun d => |sumOn ((get_transactions_df db tenant (today - days)
          today).filter fun t => isExpenseTxn t) d| := rfl
    rw [hcomp]
    set L := (get_transactions_df db tenant (today - days) today).filter
      fun t => isExpenseTxn t with hL
    have hmapeq : (datesOf L).map (fun d => |sumOn L d|) =
        (datesOf L).map (fun d => |expense_sum_on db tenant d|) := by
      apply List.map_congr_left
      intro d hdmem
      have hhas := (mem_datesOf_expenses db tenant _ _ d).mp hdmem
      obtain ⟨r, hr, hT, hs, he, hd, hq⟩ := hhas
      rw [sumOn_expenses db tenant (today - days) today d
        (by rw [← hd]; exact hs) (by rw [← hd]; exact he)]
    have hnd : (datesOf L).Nodup := List.nodup_dedup _
    rw [hmapeq, ← List.sum_toFinset _ hnd]
    refine Finset.sum_subset ?_ ?_
    · intro d hd
      rw [List.mem_toFinset] at hd
      obtain ⟨r, hr, hT, hs, he, hdd, hq⟩ :=
        (mem_datesOf_expenses db tenant _ _ d).mp hd
      rw [Finset.mem_Icc]
      exact ⟨by rw [← hdd]; exact hs, by rw [← hdd]; exact he⟩
    · intro d hd hnot
      exact key d hd (by rw [← List.mem_toFinset]; exact hnot)

/-- C1 witness: the averaged-expenses characterization evaluated on the
one-expense store with a 30-day window. -/
theorem burn_rate_is_average_daily_expenses_witness :
    (0 < 30) ∧ compute_burn_rate dbNegExpense 1 10 30 =
      (∑ d in Finset.Icc ((10 : Int) - (30 : Nat)) 10,
        |expense_sum_on dbNegExpense 1 d|) / ((30 : Nat) : Rat) :=
  ⟨by norm_num, burn_rate_is_average_daily_expenses dbNegExpense 1 10 30
    (by norm_num)⟩

/-- The burn rate is a sum of absolute values divided by a natural number,
hence never negative. -/
theorem compute_burn_rate_nonneg (db : Db) (tenant : Nat) (today : Int)
    (days : Nat) : 0 ≤ compute_burn_rate db tenant today days := by
  unfold compute_burn_rate
  by_cases hE : (compute_expenses db tenant (today - days) today).isEmpty
  · rw [if_pos hE]
  · rw [if_neg hE]
    apply div_nonneg _ (by positivity)
    apply List.sum_nonneg
    intro x hx
    rw [compute_expenses_eq] at hx
    unfold groupAbsSum at hx
    rw [List.map_map] at hx
    obtain ⟨d, -, rfl⟩ := List.mem_map.mp hx
    exact abs_nonneg _

/-- A transaction row of tenant 1: an expense of −310 on day 100, giving a
30-day burn rate of 310/30 = 31/3. -/
def rowBigExpense : TxnRow where
  tenant_id := 1
  data_source_id := 1
  date := 100
  amount := -310
  category := some "Expense"
  description := ""
  external_id := "y"

/-- A store holding only `rowBigExpense`. -/
def dbBigExpense : Db where
  transactions := [rowBigExpense]
  metrics_daily := []
  forecasts := []

theorem dbBigExpense_burn_rate : compute_burn_rate dbBigExpense 1 100 30 =
    31 / 3 := by
  simp [compute_burn_rate, compute_expenses, dbBigExpense, rowBigExpense,
    get_transactions_df, List.insertionSort, List.orderedInsert,
    TxnRow.toTxn, isExpenseTxn, expense_categories, groupAbsSum, datesOf,
    sumOn]
  norm_num

/-- C3 counterexample: with a 30-day burn rate of 31/3 and a given cash
balance of −31, `compute_runway` returns 0, while the integer part of
current_cash divided by the burn rate is −3. -/
theorem runway_not_cash_div_burn :
    compute_runway dbBigExpense 1 100 (some (-31)) = 0 ∧
      truncRat ((-31 : Rat) / compute_burn_rate dbBigExpense 1 100 30) =
        -3 := by
  constructor
  · rw [compute_runway]
    rw [dbBigExpense_burn_rate]
    norm_num [resolved_cash]
  · rw [dbBigExpense_burn_rate, truncRat]
    norm_num

/-- C3 (amended): whenever the trailing-30-day burn rate is positive and
the (given or history-computed) cash balance is positive, `compute_runway`
returns the integer part — here the floor, the quantities being positive —
of the cash balance divided by the burn rate.  When the burn rate is 0 it
returns 999, and when the balance is ≤ 0 it returns 0 (see the edge-case
theorem). -/
theorem runway_is_cash_div_burn_when_positive (db : Db) (tenant : Nat)
    (today : Int) (current_cash : Option Rat)
    (hb : 0 < compute_burn_rate db tenant today 30)
    (hc : 0 < resolved_cash db tenant today current_cash) :
    compute_runway db tenant today current_cash =
      ⌊resolved_cash db tenant today current_cash /
        compute_burn_rate db tenant today 30⌋ := by
  rw [compute_runway]
  rw [if_neg (ne_of_gt hb), if_neg (not_le.mpr hc), truncRat,
    if_neg (not_lt.mpr (le_of_lt (div_pos hc hb)))]

/-- C3 witness: cash 31 against burn rate 31/3 gives runway
`⌊31/(31/3)⌋ = 3`. -/
theorem runway_is_cash_div_burn_when_positive_witness :
    compute_runway dbBigExpense 1 100 (some 31) =
      ⌊resolved_cash dbBigExpense 1 100 (some 31) /
        compute_burn_rate dbBigExpense 1 100 30⌋ :=
  runway_is_cash_div_burn_when_positive dbBigExpense 1 100 (some 31)
    (by rw [dbBigExpense_burn_rate]; norm_num)
    (by norm_num [resolved_cash])

/-- C9: the edge cases of `compute_runway`: burn rate 0 gives 999
regardless of cash; positive burn rate with cash ≤ 0 gives 0; and the
result is never negative. -/
theorem runway_edge_cases (db : Db) (tenant : Nat) (today : Int)
    (current_cash : Option Rat) :
    (compute_burn_rate db tenant today 30 = 0 →
      compute_runway db tenant today current_cash = 999)
    ∧ (0 < compute_burn_rate db tenant today 30 →
        resolved_cash db tenant today current_cash ≤ 0 →
        compute_runway db tenant today current_cash = 0)
    ∧ 0 ≤ compute_runway db tenant today current_cash := by
  refine ⟨fun h0 => by rw [compute_runway, if_pos h0], fun hb hc => by
    rw [compute_runway, if_neg (ne_of_gt hb), if_pos hc], ?_⟩
  rw [compute_runway]
  by_cases h0 : compute_burn_rate db tenant today 30 = 0
  · rw [if_pos h0]; norm_num
  · rw [if_neg h0]
    by_cases hc : resolved_cash db tenant today current_cash ≤ 0
    · rw [if_pos hc]
    · rw [if_neg hc]
      have hb : 0 < compute_burn_rate db tenant today 30 :=
        lt_of_le_of_ne (compute_burn_rate_nonneg db tenant today 30)
          (Ne.symm h0)
      have hq : 0 ≤ resolved_cash db tenant today current_cash /
          compute_burn_rate db tenant today 30 :=
        div_nonneg (le_of_not_le hc) (le_of_lt hb)
      rw [truncRat, if_neg (not_lt.mpr hq)]
      exact Int.floor_nonneg.mpr hq

/-- C9 witness: the zero-burn-rate case on a revenue-only store and the
non-positive-cash case on the −310-expense store. -/
theorem runway_edge_cases_witness :
    compute_runway dbRevenueOnly 1 100 none = 999 ∧
      compute_runway dbBigExpense 1 100 (some (-31)) = 0 := by
  constructor
  · refine (runway_edge_cases dbRevenueOnly 1 100 none).1 ?_
    simp [compute_burn_rate, compute_expenses, dbRevenueOnly, rowRevenue,
      get_transactions_df, List.insertionSort, List.orderedInsert,
      TxnRow.toTxn, isExpenseTxn, expense_categories, groupAbsSum, datesOf,
      sumOn]
  · refine (runway_edge_cases dbBigExpense 1 100 (some (-31))).2.1 ?_ ?_
    · rw [dbBigExpense_burn_rate]; norm_num
    · norm_num [resolved_cash]

/-! ## Categorization and normalization (`etl/normalize.py`) -/

/-- Python `str.lower()` (ASCII-faithful). -/
def pyLower (s : String) : String := ⟨s.data.map Char.toLower⟩

/-- Python `str.strip()`: whitespace removed from both ends. -/
def pyStrip (s : String) : String :=
  ⟨(((s.data.dropWhile Char.isWhitespace).reverse.dropWhile
    Char.isWhitespace).reverse)⟩

/-- `pat` starts the character list `l`. -/
def listStartsWith (pat : List Char) : List Char → Bool :=
  fun l =>
    match pat, l with
    | [], _ => true
    | _ :: _, [] => false
    | c :: cs, d :: ds => c == d && listStartsWith cs ds

/-- `pat` occurs as a contiguous sublist of the character list. -/
def listContainsSub (pat : List Char) : List Char → Bool
  | [] => listStartsWith pat []
  | c :: t => listStartsWith pat (c :: t) || listContainsSub pat t

/-- Python's substring test `pat in hay`. -/
def containsSub (hay pat : String) : Bool := listContainsSub pat.data hay.data

/-- Python `str.title()` (ASCII-faithful): the first character of every
alphabetic run is uppercased, the rest lowercased. -/
def pyTitleAux : Bool → List Char → List Char
  | _, [] => []
  | prevCased, c :: cs =>
    if c.isAlpha then
      (if prevCased then c.toLower else c.toUpper) :: pyTitleAux true cs
    else c :: pyTitleAux false cs

def pyTitle (s : String) : String := ⟨pyTitleAux false s.data⟩

/-- The static `CATEGORY_MAPPING` table of normalize.py, in source order. -/
def CATEGORY_MAPPING : List (String × String) :=
  [("revenue", "Revenue"), ("sales", "Revenue"), ("income", "Revenue"),
   ("payment", "Revenue"), ("subscription", "Revenue"),
   ("expense", "Expense"), ("cost", "Expense"), ("purchase", "Expense"),
   ("payment_sent", "Expense"),
   ("saas", "SaaS"), ("software", "SaaS"), ("subscription_expense", "SaaS"),
   ("hosting", "Infrastructure"), ("server", "Infrastructure"),
   ("cloud", "Infrastructure"),
   ("marketing", "Marketing"), ("advertising", "Marketing"),
   ("ads", "Marketing"),
   ("payroll", "Payroll"), ("salary", "Payroll"), ("wages", "Payroll"),
   ("contractor", "Contractor"), ("freelance", "Contractor"),
   ("office", "Office"), ("supplies", "Office"),
   ("travel", "Travel"),
   ("meals", "Meals & Entertainment"),
   ("entertainment", "Meals & Entertainment"),
   ("refund", "Refund"), ("fee", "Fee"), ("interest", "Interest"),
   ("tax", "Tax"), ("transfer", "Transfer")]

/-- The fixed taxonomy named by the claim: the values of the static
category-mapping table, together with `"Uncategorized"`. -/
def taxonomy : List String :=
  CATEGORY_MAPPING.map Prod.snd ++ ["Uncategorized"]

/-- `normalize_category` (normalize.py lines 60-86): `"Uncategorized"` for
a missing or empty raw category; otherwise exact lookup of the lowercased,
stripped string in the table, then the first table entry whose key occurs
in it, and finally the title-cased raw string. -/
def normalize_category (raw_category : Option String) : String :=
  match raw_category with
  | none => "Uncategorized"
  | some s =>
    if s = "" then "Uncategorized"
    else
      let category_lower := pyStrip (pyLower s)
      match CATEGORY_MAPPING.lookup category_lower with
      | some v => v
      | none =>
        match CATEGORY_MAPPING.find? (fun kv =>
            containsSub category_lower kv.fst) with
        | some kv => kv.snd
        | none => pyTitle s

/-- The keyword-inference fall-through of `categorize_transaction`
(normalize.py lines 108-140), taken when no existing category is given. -/
def infer_category (description : String) (amount : Rat) : String :=
  let desc_lower := pyLower description
  if 0 < amount ∧ (["payment received", "invoice", "sale", "deposit"].any
      fun w => containsSub desc_lower w) then "Revenue"
  else if amount < 0 then
    if ["aws", "github", "stripe", "vercel", "heroku", "digitalocean",
        "software"].any (fun w => containsSub desc_lower w) then "SaaS"
    else if ["google ads", "facebook ads", "linkedin", "marketing",
        "advertising"].any (fun w => containsSub desc_lower w) then
      "Marketing"
    else if ["hosting", "server", "cloud", "domain"].any (fun w =>
        containsSub desc_lower w) then "Infrastructure"
    else if ["office", "supplies", "equipment"].any (fun w =>
        containsSub desc_lower w) then "Office"
    else if ["airline", "hotel", "uber", "lyft", "taxi", "flight"].any
        (fun w => containsSub desc_lower w) then "Travel"
    else "Expense"
  else "Uncategorized"

/-- `categorize_transaction` (normalize.py lines 89-140): a truthy (i.e.
present and non-empty) existing category is normalized; otherwise the
category is inferred from description keywords and the amount's sign. -/
def categorize_transaction (description : String) (amount : Rat)
    (existing_category : Option String) : String :=
  match existing_category with
  | some s =>
    if s = "" then infer_category description amount
    else normalize_category (some s)
  | none => infer_category description amount

/-- C2 counterexample: the raw category `"zzz"` matches no table entry, so
`normalize_category` falls through to `"zzz".title() = "Zzz"`, which is not
in the fixed taxonomy; `categorize_transaction` inherits the escape through
its existing-category path. -/
theorem normalization_escapes_taxonomy :
    normalize_category (some "zzz") = "Zzz" ∧ "Zzz" ∉ taxonomy ∧
      categorize_transaction "misc" 5 (some "zzz") = "Zzz" :=
  ⟨by decide, by decide, by decide⟩

/-- A value successfully looked up in an association list is among its
values. -/
theorem lookup_mem_values {α β : Type} [BEq α] (l : List (α × β)) (k : α)
    (v : β) (h : l.lookup k = some v) : v ∈ l.map Prod.snd := by
  induction l with
  | nil => simp [List.lookup] at h
  | cons p t ih =>
    obtain ⟨a, b⟩ := p
    by_cases hb : (k == a) = true
    · simp [List.lookup, hb] at h
      simp [h]
    · rw [Bool.not_eq_true] at hb
      simp only [List.lookup, hb] at h
      simp [ih h]

/-- Every result of the keyword-inference path is in the taxonomy. -/
theorem infer_category_mem (description : String) (amount : Rat) :
    infer_category description amount ∈ taxonomy := by
  unfold infer_category
  dsimp only
  split_ifs <;> decide

/-- `normalize_category` lands in the taxonomy except on the title-case
fall-through. -/
theorem normalize_category_cases (raw : Option String) :
    normalize_category raw ∈ taxonomy ∨
      ∃ s, raw = some s ∧ normalize_category raw = pyTitle s := by
  match raw with
  | none => exact Or.inl (by decide)
  | some s =>
    simp only [normalize_category]
    by_cases hs : s = ""
    · rw [if_pos hs]
      exact Or.inl (by decide)
    · rw [if_neg hs]
      cases hl : CATEGORY_MAPPING.lookup (pyStrip (pyLower s)) with
      | some v =>
        exact Or.inl (List.mem_append.mpr
          (Or.inl (lookup_mem_values _ _ _ hl)))
      | none =>
        cases hf : CATEGORY_MAPPING.find? (fun kv =>
            containsSub (pyStrip (pyLower s)) kv.fst) with
        | some kv =>
          refine Or.inl (List.mem_append.mpr (Or.inl ?_))
          exact List.mem_map.mpr ⟨kv, List.mem_of_find?_eq_some hf, rfl⟩
        | none => exact Or.inr ⟨s, rfl, rfl⟩

/-- A successful lookup in an association list with lawful key equality
finds an actual entry of the list bearing that exact key. -/
theorem lookup_pair_mem {α β : Type} [BEq α] [LawfulBEq α]
    (l : List (α × β)) (k : α) (v : β) (h : l.lookup k = some v) :
    (k, v) ∈ l := by
  induction l with
  | nil => simp [List.lookup] at h
  | cons p t ih =>
    obtain ⟨a, b⟩ := p
    by_cases hb : (k == a) = true
    · simp only [List.lookup, hb] at h
      rw [Option.some.injEq] at h
      subst h
      rw [eq_of_beq hb]
      exact List.mem_cons_self _ _
    · rw [Bool.not_eq_true] at hb
      simp only [List.lookup, hb] at h
      exact List.mem_cons_of_mem _ (ih h)

/-- A failed lookup means no entry of the association list bears the
key. -/
theorem lookup_none_keys {α β : Type} [BEq α] [LawfulBEq α]
    (l : List (α × β)) (k : α) (h : l.lookup k = none) :
    ∀ p ∈ l, p.1 ≠ k := by
  induction l with
  | nil => intro p hp; cases hp
  | cons q t ih =>
    obtain ⟨a, b⟩ := q
    by_cases hb : (k == a) = true
    · simp only [List.lookup, hb] at h
      exact Option.noConfusion h
    · rw [Bool.not_eq_true] at hb
      simp only [List.lookup, hb] at h
      intro p hp
      rcases List.mem_cons.mp hp with rfl | hp'
      · intro he
        have ha : a = k := he
        rw [ha] at hb
        simp at hb
      · exact ih h p hp'

/-- The claim's "matches the mapping table": some table key equals the
lowercased, stripped raw category, or occurs in it as a substring. -/
def matches_category_mapping (s : String) : Prop :=
  ∃ kv ∈ CATEGORY_MAPPING, pyStrip (pyLower s) = kv.1 ∨
    containsSub (pyStrip (pyLower s)) kv.1 = true

/-- C2 (amended): `categorize_transaction` with no — or an empty, hence
falsy — existing category always returns a taxonomy member;
`normalize_category` returns `"Uncategorized"` (a taxonomy member) on a
missing or empty raw category, a taxonomy member whenever the lowercased,
stripped raw category matches a table key exactly or by substring, and
exactly otherwise the title-cased raw string, which may lie outside the
taxonomy; `categorize_transaction` with a truthy existing category returns
precisely `normalize_category` of it, inheriting that dichotomy. -/
theorem categorization_stays_in_taxonomy_or_titlecases :
    (∀ description amount,
      categorize_transaction description amount none ∈ taxonomy)
    ∧ (∀ description amount,
      categorize_transaction description amount (some "") ∈ taxonomy)
    ∧ normalize_category none ∈ taxonomy
    ∧ normalize_category (some "") ∈ taxonomy
    ∧ (∀ s : String, s ≠ "" →
        (matches_category_mapping s →
          normalize_category (some s) ∈ taxonomy)
        ∧ (¬ matches_category_mapping s →
          normalize_category (some s) = pyTitle s))
    ∧ (∀ description amount (s : String), s ≠ "" →
        categorize_transaction description amount (some s) =
          normalize_category (some s)) := by
  refine ⟨fun d a => infer_category_mem d a, ?_, by decide, by decide, ?_, ?_⟩
  · intro d a
    simp only [categorize_transaction, if_pos rfl]
    exact infer_category_mem d a
  · intro s hs
    simp only [normalize_category, if_neg hs]
    cases hl : CATEGORY_MAPPING.lookup (pyStrip (pyLower s)) with
    | some v =>
      exact ⟨fun _ => List.mem_append.mpr
          (Or.inl (lookup_mem_values _ _ _ hl)),
        fun hnot => absurd ⟨(pyStrip (pyLower s), v),
          lookup_pair_mem _ _ _ hl, Or.inl rfl⟩ hnot⟩
    | none =>
      cases hf : CATEGORY_MAPPING.find? (fun kv =>
          containsSub (pyStrip (pyLower s)) kv.fst) with
      | some kv =>
        have hp := List.find?_some hf
        refine ⟨fun _ => List.mem_append.mpr (Or.inl ?_),
          fun hnot => absurd ⟨kv, List.mem_of_find?_eq_some hf,
            Or.inr hp⟩ hnot⟩
        exact List.mem_map.mpr ⟨kv, List.mem_of_find?_eq_some hf, rfl⟩
      | none =>
        refine ⟨fun hm => ?_, fun _ => rfl⟩
        obtain ⟨kv, hkv, hex | hsub⟩ := hm
        · exact absurd hex.symm (lookup_none_keys _ _ hl kv hkv)
        · exact absurd hsub (List.find?_eq_none.mp hf kv hkv)
  · intro d a s hs
    simp only [categorize_transaction, if_neg hs]

/-! ## Deduplication (`etl/normalize.py`, `detect_duplicates`) -/

/-- A raw transaction dictionary as produced by a data-source extractor;
`txn.get(field)` on a missing key returns `None`, modelled by `Option`. -/
structure RawTxn where
  date : Option Int
  amount : Option Rat
  description : Option String
  category : Option String
  memo : Option String
  external_id : Option String
  deriving Repr, DecidableEq

/-- The duplicate-detection key of `detect_duplicates` with its default
`key_fields = ["date", "amount", "description"]`. -/
def dupKey (t : RawTxn) : Option Int × Option Rat × Option String :=
  (t.date, t.amount, t.description)

/-- The loop of `detect_duplicates` (normalize.py lines 157-169): `seen`
accumulates keys; a transaction is kept iff its key is fresh. -/
def detect_duplicates_aux
    (seen : List (Option Int × Option Rat × Option String)) :
    List RawTxn → List RawTxn
  | [] => []
  | t :: ts =>
    if dupKey t ∈ seen then detect_duplicates_aux seen ts
    else t :: detect_duplicates_aux (dupKey t :: seen) ts

/-- `detect_duplicates` (normalize.py lines 143-174) with the default key
fields. -/
def detect_duplicates (transactions : List RawTxn) : List RawTxn :=
  detect_duplicates_aux [] transactions

theorem detect_duplicates_aux_sublist (seen :
    List (Option Int × Option Rat × Option String)) (l : List RawTxn) :
    (detect_duplicates_aux seen l).Sublist l := by
  induction l generalizing seen with
  | nil => simp [detect_duplicates_aux]
  | cons t ts ih =>
    rw [detect_duplicates_aux]
    by_cases h : dupKey t ∈ seen
    · rw [if_pos h]
      exact (ih seen).cons t
    · rw [if_neg h]
      exact (ih (dupKey t :: seen)).cons₂ t

theorem detect_duplicates_aux_fresh (seen :
    List (Option Int × Option Rat × Option String)) (l : List RawTxn) :
    ((detect_duplicates_aux seen l).map dupKey).Nodup ∧
      ∀ t ∈ detect_duplicates_aux seen l, dupKey t ∉ seen := by
  induction l generalizing seen with
  | nil => simp [detect_duplicates_aux]
  | cons t ts ih =>
    rw [detect_duplicates_aux]
    by_cases h : dupKey t ∈ seen
    · rw [if_pos h]
      exact ih seen
    · rw [if_neg h]
      obtain ⟨hnd, hfresh⟩ := ih (dupKey t :: seen)
      refine ⟨List.nodup_cons.mpr ⟨?_, hnd⟩, ?_⟩
      · intro hmem
        obtain ⟨u, hu, hk⟩ := List.mem_map.mp hmem
        exact hfresh u hu (by rw [hk]; exact List.mem_cons_self _ _)
      · intro u hu
        rcases List.mem_cons.mp hu with rfl | hu'
        · exact h
        · exact fun hs => hfresh u hu' (List.mem_cons_of_mem _ hs)

theorem detect_duplicates_aux_find? (seen :
    List (Option Int × Option Rat × Option String)) (l : List RawTxn)
    (k : Option Int × Option Rat × Option String) (hk : k ∉ seen) :
    (detect_duplicates_aux seen l).find? (fun y => dupKey y == k) =
      l.find? (fun y => dupKey y == k) := by
  induction l generalizing seen with
  | nil => simp [detect_duplicates_aux]
  | cons t ts ih =>
    rw [detect_duplicates_aux]
    by_cases h : dupKey t ∈ seen
    · rw [if_pos h]
      have hne : (dupKey t == k) = false := by
        simp only [beq_eq_false_iff_ne, ne_eq]
        intro he
        exact hk (he ▸ h)
      rw [List.find?_cons, hne, ih seen hk]
    · rw [if_neg h]
      by_cases he : dupKey t = k
      · rw [List.find?_cons, List.find?_cons]
        simp [he]
      · have hne : (dupKey t == k) = false := by
          simp [he]
        rw [List.find?_cons, List.find?_cons, hne]
        exact ih (dupKey t :: seen) fun hmem =>
          (List.mem_cons.mp hmem).elim (fun hh => he hh.symm) hk

/-- A list whose keys are pairwise distinct and avoid `seen` passes through
the loop unchanged. -/
theorem detect_duplicates_aux_id (seen :
    List (Option Int × Option Rat × Option String)) (l : List RawTxn)
    (hnd : (l.map dupKey).Nodup) (hdisj : ∀ t ∈ l, dupKey t ∉ seen) :
    detect_duplicates_aux seen l = l := by
  induction l generalizing seen with
  | nil => simp [detect_duplicates_aux]
  | cons t ts ih =>
    rw [detect_duplicates_aux,
      if_neg (hdisj t (List.mem_cons_self _ _))]
    rw [List.map_cons, List.nodup_cons] at hnd
    congr 1
    refine ih (dupKey t :: seen) hnd.2 ?_
    intro u hu hmem
    rcases List.mem_cons.mp hmem with he | hs
    · exact hnd.1 (he ▸ List.mem_map_of_mem dupKey hu)
    · exact hdisj u (List.mem_cons_of_mem _ hu) hs

/-- C10: `detect_duplicates` returns an order-preserving subsequence of its
input whose (date, amount, description) keys are pairwise distinct, keeps
for every input transaction's key the same first occurrence the input has,
and is idempotent. -/
theorem detect_duplicates_spec (l : List RawTxn) :
    (detect_duplicates l).Sublist l
    ∧ ((detect_duplicates l).map dupKey).Nodup
    ∧ (∀ x ∈ l, (detect_duplicates l).find? (fun y => dupKey y == dupKey x)
        = l.find? (fun y => dupKey y == dupKey x))
    ∧ detect_duplicates (detect_duplicates l) = detect_duplicates l := by
  refine ⟨detect_duplicates_aux_sublist [] l,
    (detect_duplicates_aux_fresh [] l).1,
    fun x _ => detect_duplicates_aux_find? [] l (dupKey x)
      (List.not_mem_nil _), ?_⟩
  exact detect_duplicates_aux_id [] _ (detect_duplicates_aux_fresh [] l).1
    fun t _ => List.not_mem_nil _

/-- A raw transaction of key (1, 5, "a"). -/
def rawA : RawTxn :=
  ⟨some 1, some 5, some "a", none, none, some "e1"⟩

/-- A raw transaction of key (2, 7, "b"). -/
def rawB : RawTxn :=
  ⟨some 2, some 7, some "b", none, none, some "e2"⟩

/-- C10 witness: the specification evaluated on the list `[A, B, A]`. -/
theorem detect_duplicates_spec_witness :
    ((detect_duplicates [rawA, rawB, rawA]).find?
        (fun y => dupKey y == dupKey rawA) =
      [rawA, rawB, rawA].find? (fun y => dupKey y == dupKey rawA))
    ∧ detect_duplicates (detect_duplicates [rawA, rawB, rawA]) =
        detect_duplicates [rawA, rawB, rawA] :=
  ⟨(detect_duplicates_spec [rawA, rawB, rawA]).2.2.1 rawA
      (List.mem_cons_self _ _),
    (detect_duplicates_spec [rawA, rawB, rawA]).2.2.2⟩

/-! ## Ingestion (`workers/tasks/ingest.py`)

The session factory (`db/session.py`) sets `autoflush=False`, so the
existence check inside the loop sees only the rows committed before the
run; rows added during the run stay pending until the single `commit()`
after the loop.  The `transactions` table carries the unique constraint
`uq_transaction_external` on (tenant_id, data_source_id, external_id)
(`db/models/__init__.py`), so a commit whose pending rows collide on that
triple — among themselves or with stored rows — fails and commits
nothing. -/

/-- `(tenant_id, external_id)`, the key of the existence check in
`ingest_datasource`. -/
def pairKey (r : TxnRow) : Nat × String := (r.tenant_id, r.external_id)

/-- `(tenant_id, data_source_id, external_id)`, the key of the
`uq_transaction_external` unique constraint. -/
def tripleKey (r : TxnRow) : Nat × Nat × String :=
  (r.tenant_id, r.data_source_id, r.external_id)

/-- `validate_transaction` (normalize.py lines 177-205): `date`, `amount`
and `external_id` must be present (and well-typed, which the embedding's
types give for free), and the date must not be in the future. -/
def validate_transaction (today : Int) (t : RawTxn) : Bool :=
  match t.date, t.amount, t.external_id with
  | some d, some _, some _ => decide (d ≤ today)
  | _, _, _ => false

/-- `enrich_transaction` (normalize.py lines 208-247): validate, then
categorize and attach tenant and data source; a validation failure raises
`ValueError`, modelled as `none`. -/
def enrich_transaction (t : RawTxn) (tenant ds : Nat) (today : Int) :
    Option TxnRow :=
  match t.date, t.amount, t.external_id with
  | some d, some a, some e =>
    if d ≤ today then
      some ⟨tenant, ds, d, a,
        some (categorize_transaction (t.description.getD "") a t.category),
        t.description.getD "", e⟩
    else none
  | _, _, _ => none

/-- The per-transaction loop of `ingest_datasource` (ingest.py lines
71-95): enrich (skipping failures), check `(tenant_id, external_id)`
against the committed store `store0`, and collect the pending inserts and
`saved_count`. -/
def ingest_loop (tenant ds : Nat) (today : Int) (store0 : List TxnRow) :
    List RawTxn → List TxnRow × Nat
  | [] => ([], 0)
  | t :: ts =>
    match enrich_transaction t tenant ds today with
    | none => ingest_loop tenant ds today store0 ts
    | some row =>
      if store0.any fun r =>
          r.tenant_id = tenant ∧ r.external_id = row.external_id then
        ingest_loop tenant ds today store0 ts
      else
        let rest := ingest_loop tenant ds today store0 ts
        (row :: rest.1, rest.2 + 1)

/-- The `commit()` after the loop, under `uq_transaction_external`: the
pending rows are appended iff their (tenant, data-source, external-id)
triples collide neither among themselves nor with the store. -/
def commit_txns (store pending : List TxnRow) :
    Except String (List TxnRow) :=
  if (pending.map tripleKey).Nodup ∧
      ∀ r ∈ pending, tripleKey r ∉ store.map tripleKey then
    .ok (store ++ pending)
  else .error "unique constraint uq_transaction_external violated"

/-- `ingest_datasource` (ingest.py lines 67-97) for an already-fetched raw
transaction list: deduplicate, enrich-and-check, commit; returns the new
store and `transactions_saved`. -/
def ingest_datasource (tenant ds : Nat) (today : Int) (raw : List RawTxn)
    (store : List TxnRow) : Except String (List TxnRow × Nat) :=
  let unique := detect_duplicates raw
  let pending := ingest_loop tenant ds today store unique
  match commit_txns store pending.1 with
  | .ok store' => .ok (store', pending.2)
  | .error e => .error e

theorem enrich_fields (t : RawTxn) (tenant ds : Nat) (today : Int)
    (row : TxnRow) (h : enrich_transaction t tenant ds today = some row) :
    row.tenant_id = tenant ∧ row.data_source_id = ds := by
  unfold enrich_transaction at h
  cases hd : t.date with
  | none => simp only [hd] at h; exact Option.noConfusion h
  | some d =>
    cases ha : t.amount with
    | none => simp only [hd, ha] at h; exact Option.noConfusion h
    | some a =>
      cases he : t.external_id with
      | none => simp only [hd, ha, he] at h; exact Option.noConfusion h
      | some e =>
        simp only [hd, ha, he] at h
        by_cases hle : d ≤ today
        · rw [if_pos hle] at h
          rw [Option.some.injEq] at h
          subst h
          exact ⟨rfl, rfl⟩
        · rw [if_neg hle] at h; cases h

/-- Soundness of the loop: every pending row was enriched from the input,
belongs to the tenant and data source, and its pair key is absent from the
committed store. -/
theorem ingest_loop_pending (tenant ds : Nat) (today : Int)
    (store0 : List TxnRow) (ts : List RawTxn) :
    ∀ row ∈ (ingest_loop tenant ds today store0 ts).1,
      row.tenant_id = tenant ∧ row.data_source_id = ds ∧
      pairKey row ∉ store0.map pairKey ∧
      ∃ t ∈ ts, enrich_transaction t tenant ds today = some row := by
  induction ts with
  | nil => intro row h; cases h
  | cons t ts ih =>
    intro row hrow
    rw [ingest_loop] at hrow
    cases he : enrich_transaction t tenant ds today with
    | none =>
      simp only [he] at hrow
      obtain ⟨h1, h2, h3, u, hu, hv⟩ := ih row hrow
      exact ⟨h1, h2, h3, u, List.mem_cons_of_mem _ hu, hv⟩
    | some row' =>
      simp only [he] at hrow
      by_cases hc : store0.any fun r =>
          r.tenant_id = tenant ∧ r.external_id = row'.external_id
      · rw [if_pos hc] at hrow
        obtain ⟨h1, h2, h3, u, hu, hv⟩ := ih row hrow
        exact ⟨h1, h2, h3, u, List.mem_cons_of_mem _ hu, hv⟩
      · rw [if_neg hc] at hrow
        rcases List.mem_cons.mp hrow with rfl | hrest
        · obtain ⟨hT, hD⟩ := enrich_fields t tenant ds today row he
          refine ⟨hT, hD, ?_, t, List.mem_cons_self _ _, he⟩
          intro hmem
          obtain ⟨r, hr, hk⟩ := List.mem_map.mp hmem
          apply hc
          refine List.any_eq_true.mpr ⟨r, hr, ?_⟩
          have h1 : r.tenant_id = row.tenant_id := congrArg Prod.fst hk
          have h2 : r.external_id = row.external_id :=
            congrArg Prod.snd hk
          rw [hT] at h1
          simp [h1, h2]
        · obtain ⟨h1, h2, h3, u, hu, hv⟩ := ih row hrest
          exact ⟨h1, h2, h3, u, List.mem_cons_of_mem _ hu, hv⟩

/-- Completeness of the check: after the loop, every raw transaction that
enriches successfully has its pair key either in the committed store or
among the pending rows. -/
theorem ingest_loop_covers (tenant ds : Nat) (today : Int)
    (store0 : List TxnRow) (ts : List RawTxn) :
    ∀ t ∈ ts, ∀ row, enrich_transaction t tenant ds today = some row →
      pairKey row ∈
        (store0 ++ (ingest_loop tenant ds today store0 ts).1).map pairKey := by
  induction ts with
  | nil => intro t h; cases h
  | cons t₀ ts ih =>
    intro t ht row he
    rw [ingest_loop]
    cases he₀ : enrich_transaction t₀ tenant ds today with
    | none =>
      simp only [he₀]
      rcases List.mem_cons.mp ht with rfl | ht'
      · rw [he₀] at he; cases he
      · exact ih t ht' row he
    | some row₀ =>
      simp only [he₀]
      by_cases hc : store0.any fun r =>
          r.tenant_id = tenant ∧ r.external_id = row₀.external_id
      · rw [if_pos hc]
        rcases List.mem_cons.mp ht with rfl | ht'
        · have hrr : row₀ = row := by
            rw [he₀] at he
            exact Option.some.inj he
          subst hrr
          obtain ⟨r, hr, hp⟩ := List.any_eq_true.mp hc
          simp only [decide_eq_true_eq] at hp
          refine List.mem_map.mpr ⟨r, List.mem_append_left _ hr, ?_⟩
          obtain ⟨hT, -⟩ := enrich_fields t tenant ds today row₀ he₀
          unfold pairKey
          rw [hp.1, hp.2, hT]
        · exact ih t ht' row he
      · rw [if_neg hc]
        rcases List.mem_cons.mp ht with rfl | ht'
        · rw [he₀] at he
          cases Option.some.inj he
          refine List.mem_map.mpr ⟨row, ?_, rfl⟩
          exact List.mem_append_right _ (List.mem_cons_self _ _)
        · have := ih t ht' row he
          rw [List.map_append] at this ⊢
          rcases List.mem_append.mp this with h | h
          · exact List.mem_append_left _ h
          · refine List.mem_append_right _ ?_
            rw [List.map_cons]
            exact List.mem_cons_of_mem _ h

/-- If every successfully enriched transaction is already covered by the
store, the loop inserts nothing. -/
theorem ingest_loop_noop (tenant ds : Nat) (today : Int)
    (store0 : List TxnRow) (ts : List RawTxn)
    (h : ∀ t ∈ ts, ∀ row, enrich_transaction t tenant ds today = some row →
      pairKey row ∈ store0.map pairKey) :
    ingest_loop tenant ds today store0 ts = ([], 0) := by
  induction ts with
  | nil => rfl
  | cons t ts ih =>
    rw [ingest_loop]
    cases he : enrich_transaction t tenant ds today with
    | none =>
      simp only [he]
      exact ih fun u hu => h u (List.mem_cons_of_mem _ hu)
    | some row =>
      simp only [he]
      have hp := h t (List.mem_cons_self _ _) row he
      obtain ⟨r, hr, hk⟩ := List.mem_map.mp hp
      have hc : store0.any (fun r =>
          r.tenant_id = tenant ∧ r.external_id = row.external_id) = true := by
        refine List.any_eq_true.mpr ⟨r, hr, ?_⟩
        have h1 : r.tenant_id = row.tenant_id := congrArg Prod.fst hk
        have h2 : r.external_id = row.external_id := congrArg Prod.snd hk
        obtain ⟨hT, -⟩ := enrich_fields t tenant ds today row he
        rw [hT] at h1
        simp [h1, h2]
      rw [if_pos hc]
      exact ih fun u hu => h u (List.mem_cons_of_mem _ hu)

/-- Unfolding of `ingest_datasource`. -/
theorem ingest_datasource_eq (tenant ds : Nat) (today : Int)
    (raw : List RawTxn) (store : List TxnRow) :
    ingest_datasource tenant ds today raw store =
      match commit_txns store
          (ingest_loop tenant ds today store (detect_duplicates raw)).1 with
      | .ok store' => .ok (store',
          (ingest_loop tenant ds today store (detect_duplicates raw)).2)
      | .error e => .error e := rfl

/-- C7: on a successful run, `ingest_datasource` only appends rows whose
`(tenant_id, external_id)` pair is not already present — the new rows'
pairs are fresh with respect to the store and pairwise distinct — and an
immediately repeated run over the same source data leaves the store
unchanged and reports `transactions_saved = 0`. -/
theorem ingest_keyed_by_tenant_external_id (tenant ds : Nat) (today : Int)
    (raw : List RawTxn) (store store' : List TxnRow) (saved : Nat)
    (h : ingest_datasource tenant ds today raw store = .ok (store', saved)) :
    (∃ inserted, store' = store ++ inserted
      ∧ (∀ r ∈ inserted, pairKey r ∉ store.map pairKey)
      ∧ (inserted.map pairKey).Nodup)
    ∧ ingest_datasource tenant ds today raw store' = .ok (store', 0) := by
  rw [ingest_datasource_eq] at h
  set u := detect_duplicates raw with hu
  set p := ingest_loop tenant ds today store u with hp
  by_cases hcm : (p.1.map tripleKey).Nodup ∧
      ∀ r ∈ p.1, tripleKey r ∉ store.map tripleKey
  · have hc1 : commit_txns store p.1 = .ok (store ++ p.1) := by
      rw [commit_txns, if_pos hcm]
    simp only [hc1] at h
    rw [Except.ok.injEq, Prod.mk.injEq] at h
    obtain ⟨h1, -⟩ := h
    subst h1
    refine ⟨⟨p.1, rfl, ?_, ?_⟩, ?_⟩
    · exact fun r hr =>
        (ingest_loop_pending tenant ds today store u r hr).2.2.1
    · have hmap : p.1.map pairKey =
          (p.1.map tripleKey).map fun x => (x.1, x.2.2) := by
        rw [List.map_map]
        rfl
      rw [hmap]
      refine hcm.1.map_on ?_
      intro x hx y hy hxy
      obtain ⟨rx, hrx, hkx⟩ := List.mem_map.mp hx
      obtain ⟨ry, hry, hky⟩ := List.mem_map.mp hy
      have hdx : x.2.1 = ds := by
        rw [← hkx]
        exact (ingest_loop_pending tenant ds today store u rx hrx).2.1
      have hdy : y.2.1 = ds := by
        rw [← hky]
        exact (ingest_loop_pending tenant ds today store u ry hry).2.1
      rw [Prod.mk.injEq] at hxy
      obtain ⟨h1, h2⟩ := hxy
      obtain ⟨xa, xb, xc⟩ := x
      obtain ⟨ya, yb, yc⟩ := y
      simp only at h1 h2 hdx hdy
      rw [h1, h2, hdx, hdy]
    · rw [ingest_datasource_eq]
      have hloop : ingest_loop tenant ds today (store ++ p.1) u = ([], 0) :=
        ingest_loop_noop tenant ds today (store ++ p.1) u
          fun t ht row he => ingest_loop_covers tenant ds today store u
            t ht row he
      rw [← hu, hloop]
      have hc2 : commit_txns (store ++ p.1) ([] : List TxnRow) =
          .ok (store ++ p.1) := by
        rw [commit_txns,
          if_pos ⟨List.nodup_nil, fun r hr => absurd hr (List.not_mem_nil r)⟩,
          List.append_nil]
      simp only [hc2]
  · have hc1 : commit_txns store p.1 =
        .error "unique constraint uq_transaction_external violated" := by
      rw [commit_txns, if_neg hcm]
    simp only [hc1] at h
    exact Except.noConfusion h

/-- A raw AWS expense transaction: date 5, amount −20, external id "e1". -/
def rawAws : RawTxn :=
  ⟨some 5, some (-20), some "aws", none, none, some "e1"⟩

/-- The row `rawAws` enriches to for tenant 1, data source 1 (the keyword
path categorizes it as SaaS). -/
def rowAws : TxnRow :=
  ⟨1, 1, 5, -20, some "SaaS", "aws", "e1"⟩

theorem ingest_rawAws :
    ingest_datasource 1 1 10 [rawAws] [] = .ok ([rowAws], 1) := by
  rfl

/-- C7 witness: the freshly ingested store absorbs a repeat run over the
same raw data with `transactions_saved = 0`. -/
theorem ingest_keyed_by_tenant_external_id_witness :
    ingest_datasource 1 1 10 [rawAws] [rowAws] = .ok ([rowAws], 0) := by
  have h := (ingest_keyed_by_tenant_external_id 1 1 10 [rawAws] [] [rowAws]
    1 ingest_rawAws).2
  simpa using h

/-! ## Forecasting (`etl/forecasts.py`)

Prophet itself is an external library; the embedding abstracts the fitted
model as an arbitrary prediction function `pred : Int → Rat × Rat × Rat`
giving `(yhat, yhat_lower, yhat_upper)` per date, and models the library's
`make_future_dataframe(periods, freq="D")`: the sorted distinct history
dates followed by `periods` consecutive dates after the last history
date. -/

/-- `settings.forecast_min_data_points` (core/config.py line 96). -/
def forecast_min_data_points : Nat := 30

/-- Prophet's `history_dates`: the sorted distinct `ds` values. -/
def history_dates (hist : List (Int × Rat)) : List Int :=
  ((hist.map Prod.fst).dedup).insertionSort fun a b => a ≤ b

/-- The last (maximum) history date. -/
def lastDate (hist : List (Int × Rat)) : Int :=
  ((hist.map Prod.fst).max?).getD 0

/-- `model.make_future_dataframe(periods=horizon_days, freq="D")`: history
dates plus the `periods` consecutive days following the last one. -/
def make_future_dataframe (hist : List (Int × Rat)) (periods : Nat) :
    List Int :=
  history_dates hist ++ (List.range periods).map fun (i : Nat) => lastDate hist + 1 + (i : Int)

/-- The dictionary `generate_forecast` returns (the fields the claim
concerns, plus the accuracy score). -/
structure ForecastResult where
  horizon_days : Nat
  series : List (Int × Rat)
  confidence_intervals : List (Int × (Rat × Rat))
  accuracy_score : Option Rat
  deriving Repr, DecidableEq

/-- `ForecastEngine.generate_forecast` (forecasts.py lines 114-197) for an
already-loaded metric history: insufficient data raises `ValueError`
(`none`); otherwise predict over the future frame, keep the last
`horizon_days` rows as the forecast series with confidence bands, and score
accuracy as `max 0 (1 − MAPE)` over the history rows with nonzero actuals
(`None` when every actual is zero). -/
def generate_forecast (pred : Int → Rat × Rat × Rat)
    (hist : List (Int × Rat)) (horizon_days min_data_points : Nat) :
    Option ForecastResult :=
  if hist.isEmpty ∨ hist.length < min_data_points then none
  else
    let future := make_future_dataframe hist horizon_days
    let forecast := future.map fun d => (d, pred d)
    let future_forecast := forecast.drop (forecast.length - horizon_days)
    let series := future_forecast.map fun p => (p.1, p.2.1)
    let confidence_intervals :=
      future_forecast.map fun p => (p.1, (p.2.2.1, p.2.2.2))
    let actual := hist.map Prod.snd
    let predicted := (forecast.take hist.length).map fun p => p.2.1
    let masked := (actual.zip predicted).filter fun ap => ap.1 ≠ 0
    let accuracy_score :=
      if masked.isEmpty then none
      else some (max 0 (1 -
        ((masked.map fun ap => |(ap.1 - ap.2) / ap.1|).sum / masked.length)))
    some { horizon_days := horizon_days, series := series,
           confidence_intervals := confidence_intervals,
           accuracy_score := accuracy_score }

/-- C8: whenever `generate_forecast` succeeds, the keys of its series are
exactly the `horizon_days` consecutive days following the last historical
date, and the confidence-interval map carries a (lower, upper) band for
exactly the same keys. -/
theorem forecast_horizon_keys (pred : Int → Rat × Rat × Rat)
    (hist : List (Int × Rat)) (horizon_days min_data_points : Nat)
    (res : ForecastResult)
    (h : generate_forecast pred hist horizon_days min_data_points =
      some res) :
    res.series.map Prod.fst =
      ((List.range horizon_days).map fun (i : Nat) => lastDate hist + 1 + (i : Int))
    ∧ res.confidence_intervals.map Prod.fst =
      ((List.range horizon_days).map fun (i : Nat) => lastDate hist + 1 + (i : Int)) := by
  by_cases hg : hist.isEmpty ∨ hist.length < min_data_points
  · rw [generate_forecast, if_pos hg] at h
    exact Option.noConfusion h
  · rw [generate_forecast, if_neg hg, Option.some.injEq] at h
    subst h
    dsimp only
    have hsplit : (make_future_dataframe hist horizon_days).map
        (fun d => (d, pred d)) =
        ((history_dates hist).map fun d => (d, pred d)) ++
        (((List.range horizon_days).map fun (i : Nat) => lastDate hist + 1 + (i : Int)).map
          fun d => (d, pred d)) := by
      rw [make_future_dataframe, List.map_append]
    have hlen : ((make_future_dataframe hist horizon_days).map
        (fun d => (d, pred d))).length - horizon_days =
        (((history_dates hist)).map fun d => (d, pred d)).length := by
      rw [hsplit]
      simp [Nat.add_sub_cancel]
    rw [hlen, hsplit, List.drop_left]
    constructor <;> simp [List.map_map, Function.comp_def]

/-- A two-point metric history whose values are all zero. -/
def histZero : List (Int × Rat) := [(0, 0), (1, 0)]

/-- The result of forecasting `histZero` three days ahead with the
constant-zero prediction function. -/
def resZero : ForecastResult :=
  { horizon_days := 3, series := [(2, 0), (3, 0), (4, 0)],
    confidence_intervals := [(2, (0, 0)), (3, (0, 0)), (4, (0, 0))],
    accuracy_score := none }

theorem generate_forecast_histZero :
    generate_forecast (fun _ => (0, 0, 0)) histZero 3 2 = some resZero := by
  rfl

/-- C8 witness: the horizon-key property evaluated on `histZero` with a
3-day horizon. -/
theorem forecast_horizon_keys_witness :
    resZero.series.map Prod.fst =
      ((List.range 3).map fun (i : Nat) => lastDate histZero + 1 + (i : Int))
    ∧ resZero.confidence_intervals.map Prod.fst =
      ((List.range 3).map fun (i : Nat) => lastDate histZero + 1 + (i : Int)) :=
  forecast_horizon_keys (fun _ => (0, 0, 0)) histZero 3 2 resZero
    generate_forecast_histZero

/-! ## Tenant isolation -/

/-- `ForecastEngine.get_metric_history` (forecasts.py lines 36-82): the
tenant's rows of the metric, within the optional date bounds, ordered by
date and projected onto Prophet's `(ds, y)` columns. -/
def get_metric_history (db : Db) (tenant : Nat) (metric : String)
    (start_date end_date : Option Int) : List (Int × Rat) :=
  let rows := db.metrics_daily.filter fun m =>
    decide (m.tenant_id = tenant) &&
      (decide (m.metric = metric) &&
        ((start_date.all fun s => decide (s ≤ m.date)) &&
          (end_date.all fun e => decide (m.date ≤ e))))
  ((rows.insertionSort fun a b => a.date ≤ b.date).map fun m =>
    (m.date, m.value))

/-- `ORDER BY created_at DESC LIMIT 1` over a list of forecast rows: the
first row carrying the maximal `created_at`. -/
def latest_first (l : List ForecastRow) : Option ForecastRow :=
  l.foldl (fun acc r =>
    match acc with
    | none => some r
    | some b => if b.created_at < r.created_at then some r else some b) none

/-- `ForecastEngine.get_latest_forecast` (forecasts.py lines 254-286): the
most recently created forecast row of the tenant for the metric. -/
def get_latest_forecast (db : Db) (tenant : Nat) (metric : String) :
    Option ForecastRow :=
  latest_first (db.forecasts.filter fun f =>
    decide (f.tenant_id = tenant) && decide (f.metric = metric))

/-- Lists agreeing on a filter agree on any refinement of that filter. -/
theorem filter_and_eq {α : Type} (l₁ l₂ : List α) (t p : α → Bool)
    (h : l₁.filter t = l₂.filter t) :
    l₁.filter (fun a => t a && p a) = l₂.filter (fun a => t a && p a) := by
  have e : ∀ l : List α, l.filter (fun a => t a && p a) =
      (l.filter t).filter p := by
    intro l
    rw [List.filter_filter]
    exact List.filter_congr fun a _ => Bool.and_comm (t a) (p a)
  rw [e, e, h]

/-- C5 (tenant noninterference, two-run): if two database states agree on
every transaction, daily-metric and forecast row of tenant `T`, then every
read and compute of the KPI and forecast engines for `T` —
`get_transactions_df`, `compute_revenue`, `compute_expenses`,
`compute_net_cash`, `get_metric_history`, `get_latest_forecast` — returns
the same result; rows of other tenants never influence them. -/
theorem tenant_noninterference (db₁ db₂ : Db) (tenant : Nat)
    (ht : db₁.transactions.filter (fun r => r.tenant_id = tenant) =
      db₂.transactions.filter (fun r => r.tenant_id = tenant))
    (hm : db₁.metrics_daily.filter (fun m => m.tenant_id = tenant) =
      db₂.metrics_daily.filter (fun m => m.tenant_id = tenant))
    (hf : db₁.forecasts.filter (fun f => f.tenant_id = tenant) =
      db₂.forecasts.filter (fun f => f.tenant_id = tenant)) :
    (∀ s e, get_transactions_df db₁ tenant s e =
      get_transactions_df db₂ tenant s e)
    ∧ (∀ s e, compute_revenue db₁ tenant s e = compute_revenue db₂ tenant s e)
    ∧ (∀ s e, compute_expenses db₁ tenant s e =
        compute_expenses db₂ tenant s e)
    ∧ (∀ s e, compute_net_cash db₁ tenant s e =
        compute_net_cash db₂ tenant s e)
    ∧ (∀ metric s? e?, get_metric_history db₁ tenant metric s? e? =
        get_metric_history db₂ tenant metric s? e?)
    ∧ (∀ metric, get_latest_forecast db₁ tenant metric =
        get_latest_forecast db₂ tenant metric) := by
  have htx : ∀ s e,
      (db₁.transactions.filter fun r =>
        r.tenant_id = tenant ∧ s ≤ r.date ∧ r.date ≤ e) =
      (db₂.transactions.filter fun r =>
        r.tenant_id = tenant ∧ s ≤ r.date ∧ r.date ≤ e) := by
    intro s e
    have hrw : ∀ l : List TxnRow,
        (l.filter fun r => r.tenant_id = tenant ∧ s ≤ r.date ∧ r.date ≤ e) =
        l.filter fun r => decide (r.tenant_id = tenant) &&
          decide (s ≤ r.date ∧ r.date ≤ e) :=
      fun l => List.filter_congr fun a _ => Bool.decide_and _ _
    rw [hrw, hrw]
    exact filter_and_eq _ _ _ _ ht
  have hgdf : ∀ s e, get_transactions_df db₁ tenant s e =
      get_transactions_df db₂ tenant s e := by
    intro s e
    unfold get_transactions_df
    rw [htx s e]
  have hrev : ∀ s e, compute_revenue db₁ tenant s e =
      compute_revenue db₂ tenant s e := by
    intro s e
    unfold compute_revenue
    rw [hgdf s e]
  have hexp : ∀ s e, compute_expenses db₁ tenant s e =
      compute_expenses db₂ tenant s e := by
    intro s e
    unfold compute_expenses
    rw [hgdf s e]
  refine ⟨hgdf, hrev, hexp, ?_, ?_, ?_⟩
  · intro s e
    unfold compute_net_cash
    rw [hrev s e, hexp s e]
  · intro metric s? e?
    unfold get_metric_history
    rw [filter_and_eq _ _ _ _ hm]
  · intro metric
    unfold get_latest_forecast
    rw [filter_and_eq _ _ _ _ hf]

/-- A metric row of tenant 1. -/
def metricT1 : MetricRow := ⟨1, 0, "revenue", 5⟩

/-- A forecast row of tenant 1. -/
def forecastT1 : ForecastRow := ⟨1, "revenue", 3, [], [], none, 7⟩

/-- A database holding tenant 1's rows only. -/
def dbTenant1 : Db where
  transactions := [rowAws]
  metrics_daily := [metricT1]
  forecasts := [forecastT1]

/-- The same database with additional rows of tenant 2 interleaved. -/
def dbTenant1And2 : Db where
  transactions := [rowAws, ⟨2, 3, 5, 40, some "Revenue", "other", "z9"⟩]
  metrics_daily := [metricT1, ⟨2, 0, "revenue", 8⟩]
  forecasts := [forecastT1, ⟨2, "revenue", 3, [], [], none, 9⟩]

/-- C5 witness: adding tenant-2 rows changes none of tenant 1's reads. -/
theorem tenant_noninterference_witness :
    compute_net_cash dbTenant1 1 0 10 = compute_net_cash dbTenant1And2 1 0 10
    ∧ get_metric_history dbTenant1 1 "revenue" none none =
        get_metric_history dbTenant1And2 1 "revenue" none none
    ∧ get_latest_forecast dbTenant1 1 "revenue" =
        get_latest_forecast dbTenant1And2 1 "revenue" := by
  have h := tenant_noninterference dbTenant1 dbTenant1And2 1 rfl rfl rfl
  exact ⟨h.2.2.2.1 0 10, h.2.2.2.2.1 "revenue" none none,
    h.2.2.2.2.2 "revenue"⟩

end Aurix
